import Mathlib

/-
Verification of the transform-synchronization core of the PixelDiff
comparison viewer.

The embedding models the `ComparisonViewer` component and the image-set
handling of `App`:

* `TransformState`        mirrors the TypeScript interface `TransformState`
                          with fields `x`, `y`, `scale`.  Scalar values are
                          embedded as exact rationals.
* `TransformTable`        mirrors `transformsRef.current : Record<string,
                          TransformState>`, as an association list whose
                          entry order matches JavaScript object-key
                          insertion order (assignment to a present key
                          updates in place, to a missing key appends;
                          `delete` removes the entry and preserves the
                          relative order of the rest).
* `ensure`                mirrors the reconciliation `useEffect` that first
                          initializes missing entries to `{x:0,y:0,scale:1}`
                          and then deletes entries whose key is not a
                          current image id.
* `applyTransformUpdate`, `handleWheel`, `handleZoomBtn`, `handleReset`,
  `panStep` / `handleMouseMove`
                          mirror the identically named handlers.  `images`
                          is the list of tracked image ids (`img.id` for
                          `img` in the `images` prop, in order).  The
                          `direction` argument (in / out) of
                          `handleZoomBtn` is embedded as `zoomIn : Bool`
                          (`true` for zoom-in).
* `handleRemove`          mirrors `App.handleRemove`, which filters the
                          removed id out of the image list.

Where the TypeScript reads `transformsRef.current[someId]` without a guard
(the synced branches of `applyTransformUpdate` and of the pan handler), a
missing entry would make the JavaScript throw on property access; that
situation is unreachable once the reconciliation effect has run, and the
embedding models it as leaving the table unchanged.
-/

namespace PixelDiff

/-- Mirrors the `TransformState` interface: pan offset `x`, `y` and `scale`. -/
structure TransformState where
  x : ℚ
  y : ℚ
  scale : ℚ
deriving DecidableEq

/-- The initial transform `{ x: 0, y: 0, scale: 1 }`. -/
def initTransform : TransformState := ⟨0, 0, 1⟩

/-- `transformsRef.current`: a string-keyed record of transforms. -/
abbrev TransformTable := List (String × TransformState)

/-- Reading `table[id]`: first entry with the given key, if any. -/
def lookupT : TransformTable → String → Option TransformState
  | [], _ => none
  | (k, v) :: rest, id => if k = id then some v else lookupT rest id

/-- Writing `table[id] = v`: replace the entry in place if the key is
present, append it otherwise (JavaScript object-key semantics). -/
def setT : TransformTable → String → TransformState → TransformTable
  | [], id, v => [(id, v)]
  | (k, w) :: rest, id, v =>
    if k = id then (id, v) :: rest else (k, w) :: setT rest id v

/-- `images.forEach(img => { transformsRef.current[img.id] = {...v} })`:
write the same value to every listed id. -/
def fanOut (images : List String) (v : TransformState)
    (table : TransformTable) : TransformTable :=
  images.foldl (fun t i => setT t i v) table

/-- First half of the reconciliation effect: initialize a transform for
every image id that has no entry yet. -/
def addMissing (ids : List String) (table : TransformTable) : TransformTable :=
  ids.foldl (fun t i =>
    match lookupT t i with
    | some _ => t
    | none => setT t i initTransform) table

/-- The reconciliation `useEffect`: initialize missing entries, then delete
entries whose key is not an active image id. -/
def ensure (ids : List String) (table : TransformTable) : TransformTable :=
  (addMissing ids table).filter (fun p => decide (p.1 ∈ ids))

/-- Mirrors `applyTransformUpdate`: in synced mode, or when no explicit
target is given, compute the updated transform once from the reference
entry (the target, else the first image) and fan it out to every image;
otherwise update just the target entry. -/
def applyTransformUpdate (isSynced : Bool) (images : List String)
    (table : TransformTable) (targetId : Option String)
    (updater : TransformState → TransformState) : TransformTable :=
  if isSynced = true ∨ targetId = none then
    match (match targetId with | some t => some t | none => images.head?) with
    | none => table
    | some referenceId =>
      match lookupT table referenceId with
      | none => table
      | some prev => fanOut images (updater prev) table
  else
    match targetId with
    | none => table
    | some tid =>
      match lookupT table tid with
      | none => table
      | some prev => setT table tid (updater prev)

/-- The wheel sensitivity constant `ZOOM_SPEED = 0.001`. -/
def ZOOM_SPEED : ℚ := 1 / 1000

/-- `Math.min` on rationals (executable). -/
def minQ (a b : ℚ) : ℚ := if a ≤ b then a else b

/-- `Math.max` on rationals (executable). -/
def maxQ (a b : ℚ) : ℚ := if a ≤ b then b else a

theorem minQ_eq_min (a b : ℚ) : minQ a b = min a b := by
  simp [minQ, min_def]

theorem maxQ_eq_max (a b : ℚ) : maxQ a b = max a b := by
  by_cases h : a ≤ b
  · simp [maxQ, h, max_eq_right h]
  · simp [maxQ, h, max_eq_left (le_of_not_le h)]

/-- Mirrors `handleWheel`: additive scale delta `deltaY * -ZOOM_SPEED`,
clamped into `[0.1, 20]`. -/
def handleWheel (isSynced : Bool) (images : List String)
    (table : TransformTable) (id : String) (deltaY : ℚ) : TransformTable :=
  let delta := deltaY * (-ZOOM_SPEED)
  applyTransformUpdate isSynced images table (some id)
    (fun prev => ⟨prev.x, prev.y, minQ (maxQ (1 / 10) (prev.scale + delta)) 20⟩)

/-- Mirrors `handleZoomBtn`: multiplicative factor `1.25` for zoom-in and
`0.8` for zoom-out, clamped into `[0.1, 20]`. -/
def handleZoomBtn (isSynced : Bool) (images : List String)
    (table : TransformTable) (id : Option String) (zoomIn : Bool) :
    TransformTable :=
  let factor : ℚ := if zoomIn then 5 / 4 else 4 / 5
  applyTransformUpdate isSynced images table id
    (fun prev => ⟨prev.x, prev.y, minQ (maxQ (1 / 10) (prev.scale * factor)) 20⟩)

/-- Mirrors `handleReset`: in synced mode or with no explicit target, set
every image to the identity transform; otherwise set only the target. -/
def handleReset (isSynced : Bool) (images : List String)
    (table : TransformTable) (id : Option String) : TransformTable :=
  if isSynced = true ∨ id = none then fanOut images initTransform table
  else
    match id with
    | none => table
    | some i => setT table i initTransform

/-- `{ ...t, x: t.x + dx, y: t.y + dy }`: shift the offset, keep the scale. -/
def moveBy (dx dy : ℚ) (p : TransformState) : TransformState :=
  ⟨p.x + dx, p.y + dy, p.scale⟩

/-- One pan write `table[imgId] = { ...t, x: t.x + dx, y: t.y + dy }`,
guarded on the entry being present. -/
def panStep (dx dy : ℚ) (t : TransformTable) (imgId : String) :
    TransformTable :=
  match lookupT t imgId with
  | none => t
  | some p => setT t imgId (moveBy dx dy p)

/-- Mirrors the `handleMouseMove` listener: while panning with an active
target, synced mode moves every image by the movement delta, independent
mode moves only the target. -/
def handleMouseMove (isSynced : Bool) (images : List String)
    (table : TransformTable) (isPanning : Bool)
    (activeImageId : Option String) (dx dy : ℚ) : TransformTable :=
  if isPanning = false ∨ activeImageId = none then table
  else
    match activeImageId with
    | none => table
    | some targetId =>
      if isSynced then images.foldl (panStep dx dy) table
      else panStep dx dy table targetId

/-- Mirrors `App.handleRemove`: drop the removed id from the image list. -/
def handleRemove (id : String) (images : List String) : List String :=
  images.filter (fun i => decide (¬ (i = id)))

/-- A zoom operation: a wheel event on a tile or a zoom button press
(per-tile or global), each under the sync mode in force at that moment. -/
inductive ZoomOp where
  | wheel (isSynced : Bool) (id : String) (deltaY : ℚ)
  | button (isSynced : Bool) (id : Option String) (zoomIn : Bool)

/-- Dispatch one zoom operation to its handler. -/
def applyZoomOp (images : List String) (table : TransformTable) :
    ZoomOp → TransformTable
  | ZoomOp.wheel s id d => handleWheel s images table id d
  | ZoomOp.button s id z => handleZoomBtn s images table id z

/-- Apply a sequence of zoom operations in order. -/
def applyZoomOps (images : List String) (table : TransformTable)
    (ops : List ZoomOp) : TransformTable :=
  ops.foldl (applyZoomOp images) table

/-! Section: Basic table lemmas -/

theorem lookupT_setT (t : TransformTable) (i k : String) (v : TransformState) :
    lookupT (setT t i v) k = if k = i then some v else lookupT t k := by
  induction t with
  | nil => simp [setT, lookupT, eq_comm]
  | cons hd rest ih =>
    obtain ⟨a, w⟩ := hd
    by_cases hai : a = i
    · subst hai
      by_cases hk : k = a <;> simp [setT, lookupT, hk, eq_comm]
    · by_cases hk : a = k
      · subst hk
        simp [setT, lookupT, hai]
      · simp [setT, lookupT, hai, hk, ih]

theorem setT_setT_self (t : TransformTable) (i : String)
    (v w : TransformState) : setT (setT t i v) i w = setT t i w := by
  induction t with
  | nil => simp [setT]
  | cons hd rest ih =>
    obtain ⟨a, b⟩ := hd
    by_cases hai : a = i <;> simp [setT, hai, ih]

theorem setT_eq_of_lookupT (t : TransformTable) (i : String)
    (v : TransformState) (h : lookupT t i = some v) : setT t i v = t := by
  induction t with
  | nil => simp [lookupT] at h
  | cons hd rest ih =>
    obtain ⟨a, b⟩ := hd
    by_cases hai : a = i
    · subst hai
      simp [lookupT] at h
      simp [setT, h]
    · simp [lookupT, hai] at h
      simp [setT, hai, ih h]

theorem lookupT_fanOut (images : List String) (v : TransformState)
    (t : TransformTable) (k : String) :
    lookupT (fanOut images v t) k =
      if k ∈ images then some v else lookupT t k := by
  induction images generalizing t with
  | nil => simp [fanOut]
  | cons i rest ih =>
    have hstep : fanOut (i :: rest) v t = fanOut rest v (setT t i v) := rfl
    rw [hstep, ih]
    by_cases hkr : k ∈ rest
    · simp [hkr]
    · by_cases hki : k = i <;> simp [hkr, hki, lookupT_setT]

theorem lookupT_panStep (dx dy : ℚ) (t : TransformTable) (i k : String) :
    lookupT (panStep dx dy t i) k =
      if k = i then Option.map (moveBy dx dy) (lookupT t i)
      else lookupT t k := by
  unfold panStep
  cases h : lookupT t i with
  | none => by_cases hk : k = i <;> simp [h, hk]
  | some p => by_cases hk : k = i <;> simp [h, hk, lookupT_setT]

theorem lookupT_panFold (dx dy : ℚ) (images : List String)
    (t : TransformTable) (k : String) (hnd : images.Nodup) :
    lookupT (images.foldl (panStep dx dy) t) k =
      if k ∈ images then Option.map (moveBy dx dy) (lookupT t k)
      else lookupT t k := by
  induction images generalizing t with
  | nil => simp
  | cons i rest ih =>
    have hstep : (i :: rest).foldl (panStep dx dy) t
        = rest.foldl (panStep dx dy) (panStep dx dy t i) := rfl
    have hni : i ∉ rest := (List.nodup_cons.mp hnd).1
    have hndr : rest.Nodup := (List.nodup_cons.mp hnd).2
    rw [hstep, ih _ hndr]
    by_cases hkr : k ∈ rest
    · have hki : ¬ k = i := fun h => hni (h ▸ hkr)
      simp [hkr, hki, lookupT_panStep]
    · by_cases hki : k = i
      · subst hki
        simp [hkr, lookupT_panStep]
      · simp [hkr, hki, lookupT_panStep]

theorem lookupT_addMissing (ids : List String) (t : TransformTable)
    (k : String) :
    lookupT (addMissing ids t) k =
      if k ∈ ids then some ((lookupT t k).getD initTransform)
      else lookupT t k := by
  induction ids generalizing t with
  | nil => simp [addMissing]
  | cons i rest ih =>
    have hstep : addMissing (i :: rest) t
        = addMissing rest (match lookupT t i with
            | some _ => t
            | none => setT t i initTransform) := rfl
    rw [hstep, ih]
    have hstate : ∀ k2 : String,
        lookupT (match lookupT t i with
          | some _ => t
          | none => setT t i initTransform) k2
        = if k2 = i then some ((lookupT t i).getD initTransform)
          else lookupT t k2 := by
      intro k2
      cases h : lookupT t i with
      | none => by_cases hk : k2 = i <;> simp [h, hk, lookupT_setT]
      | some p => by_cases hk : k2 = i <;> simp [h, hk]
    by_cases hkr : k ∈ rest
    · rw [if_pos hkr, if_pos (List.mem_cons_of_mem i hkr), hstate]
      by_cases hki : k = i
      · subst hki
        simp
      · simp [hki]
    · by_cases hki : k = i
      · subst hki
        rw [if_neg hkr, if_pos (List.mem_cons_self k rest), hstate, if_pos rfl]
      · have : ¬ k ∈ i :: rest := by
          simp [List.mem_cons, hki, hkr]
        rw [if_neg hkr, if_neg this, hstate, if_neg hki]

theorem addMissing_eq_self (ids : List String) (t : TransformTable)
    (h : ∀ i ∈ ids, (lookupT t i).isSome = true) : addMissing ids t = t := by
  induction ids with
  | nil => rfl
  | cons i rest ih =>
    have hi := h i (List.mem_cons_self i rest)
    obtain ⟨v, hv⟩ := Option.isSome_iff_exists.mp hi
    have hstep : addMissing (i :: rest) t
        = addMissing rest (match lookupT t i with
            | some _ => t
            | none => setT t i initTransform) := rfl
    rw [hstep, hv]
    exact ih (fun j hj => h j (List.mem_cons_of_mem i hj))

theorem lookupT_filterMem (ids : List String) (t : TransformTable)
    (k : String) :
    lookupT (t.filter (fun p => decide (p.1 ∈ ids))) k =
      if k ∈ ids then lookupT t k else none := by
  induction t with
  | nil => simp [lookupT]
  | cons hd rest ih =>
    obtain ⟨a, w⟩ := hd
    by_cases ha : a ∈ ids
    · by_cases hak : a = k
      · subst hak
        simp [List.filter, ha, lookupT]
      · simp [List.filter, ha, lookupT, hak, ih]
    · by_cases hak : a = k
      · subst hak
        simp [List.filter, ha, lookupT, ih]
      · simp [List.filter, ha, lookupT, hak, ih]

theorem lookupT_ensure (ids : List String) (t : TransformTable) (k : String) :
    lookupT (ensure ids t) k =
      if k ∈ ids then some ((lookupT t k).getD initTransform) else none := by
  unfold ensure
  rw [lookupT_filterMem, lookupT_addMissing]
  by_cases h : k ∈ ids <;> simp [h]

theorem ensure_ensure (ids : List String) (t : TransformTable) :
    ensure ids (ensure ids t) = ensure ids t := by
  have h1 : ∀ i ∈ ids, (lookupT (ensure ids t) i).isSome = true := by
    intro i hi
    rw [lookupT_ensure, if_pos hi]
    rfl
  have h2 : addMissing ids (ensure ids t) = ensure ids t :=
    addMissing_eq_self _ _ h1
  have h3 : ∀ p ∈ ensure ids t, (fun p => decide (p.1 ∈ ids)) p = true := by
    intro p hp
    have hp2 : p ∈ (addMissing ids t).filter (fun p => decide (p.1 ∈ ids)) :=
      hp
    exact (List.mem_filter.mp hp2).2
  show (addMissing ids (ensure ids t)).filter (fun p => decide (p.1 ∈ ids))
      = ensure ids t
  rw [h2]
  exact List.filter_eq_self.mpr h3

/-! Section: Clamp lemmas -/

theorem clamp_range (v : ℚ) :
    1 / 10 ≤ minQ (maxQ (1 / 10) v) 20 ∧ minQ (maxQ (1 / 10) v) 20 ≤ 20 := by
  rw [minQ_eq_min, maxQ_eq_max]
  refine ⟨le_min (le_max_left _ _) (by norm_num), min_le_right _ _⟩

theorem clamp_of_mem (s : ℚ) (h1 : 1 / 10 ≤ s) (h2 : s ≤ 20) :
    minQ (maxQ (1 / 10) s) 20 = s := by
  rw [minQ_eq_min, maxQ_eq_max, max_eq_right h1, min_eq_left h2]

/-! Section: Scale stays in range under any zoom sequence -/

theorem applyTransformUpdate_scale_range (isSynced : Bool)
    (images : List String) (t : TransformTable) (targetId : Option String)
    (updater : TransformState → TransformState)
    (hupd : ∀ p, 1 / 10 ≤ (updater p).scale ∧ (updater p).scale ≤ 20)
    (hinv : ∀ k v, lookupT t k = some v → 1 / 10 ≤ v.scale ∧ v.scale ≤ 20) :
    ∀ k v, lookupT (applyTransformUpdate isSynced images t targetId updater) k
      = some v → 1 / 10 ≤ v.scale ∧ v.scale ≤ 20 := by
  intro k v hkv
  unfold applyTransformUpdate at hkv
  split at hkv
  · split at hkv
    · exact hinv _ _ hkv
    · split at hkv
      · exact hinv _ _ hkv
      · rw [lookupT_fanOut] at hkv
        by_cases hk : k ∈ images
        · rw [if_pos hk] at hkv
          cases hkv
          exact hupd _
        · rw [if_neg hk] at hkv
          exact hinv _ _ hkv
  · split at hkv
    · exact hinv _ _ hkv
    · split at hkv
      · exact hinv _ _ hkv
      · rw [lookupT_setT] at hkv
        split at hkv
        · cases hkv
          exact hupd _
        · exact hinv _ _ hkv

theorem applyZoomOp_scale_range (images : List String) (t : TransformTable)
    (op : ZoomOp)
    (hinv : ∀ k v, lookupT t k = some v → 1 / 10 ≤ v.scale ∧ v.scale ≤ 20) :
    ∀ k v, lookupT (applyZoomOp images t op) k = some v →
      1 / 10 ≤ v.scale ∧ v.scale ≤ 20 := by
  cases op with
  | wheel s id d =>
    exact applyTransformUpdate_scale_range _ _ _ _ _
      (fun p => clamp_range _) hinv
  | button s id z =>
    exact applyTransformUpdate_scale_range _ _ _ _ _
      (fun p => clamp_range _) hinv

theorem applyZoomOps_scale_range (images : List String) (t : TransformTable)
    (ops : List ZoomOp)
    (hinv : ∀ k v, lookupT t k = some v → 1 / 10 ≤ v.scale ∧ v.scale ≤ 20) :
    ∀ k v, lookupT (applyZoomOps images t ops) k = some v →
      1 / 10 ≤ v.scale ∧ v.scale ≤ 20 := by
  induction ops generalizing t with
  | nil => exact hinv
  | cons op rest ih =>
    have hstep : applyZoomOps images t (op :: rest)
        = applyZoomOps images (applyZoomOp images t op) rest := rfl
    rw [hstep]
    exact ih _ (applyZoomOp_scale_range images t op hinv)

/-! Section: Splitting additive wheel deltas of a uniform sign -/

theorem clamp_add_clamp_nonneg (s d1 d2 : ℚ) (hs1 : 1 / 10 ≤ s)
    (hs2 : s ≤ 20) (h1 : 0 ≤ d1) (h2 : 0 ≤ d2) :
    minQ (maxQ (1 / 10) (minQ (maxQ (1 / 10) (s + d1)) 20 + d2)) 20
      = minQ (maxQ (1 / 10) (s + (d1 + d2))) 20 := by
  simp only [minQ_eq_min, maxQ_eq_max, min_def, max_def]
  split_ifs <;> linarith

theorem clamp_add_clamp_nonpos (s d1 d2 : ℚ) (hs1 : 1 / 10 ≤ s)
    (hs2 : s ≤ 20) (h1 : d1 ≤ 0) (h2 : d2 ≤ 0) :
    minQ (maxQ (1 / 10) (minQ (maxQ (1 / 10) (s + d1)) 20 + d2)) 20
      = minQ (maxQ (1 / 10) (s + (d1 + d2))) 20 := by
  simp only [minQ_eq_min, maxQ_eq_max, min_def, max_def]
  split_ifs <;> linarith

theorem list_sum_nonpos (l : List ℚ) (h : ∀ x ∈ l, x ≤ 0) : l.sum ≤ 0 := by
  induction l with
  | nil => simp
  | cons a rest ih =>
    rw [List.sum_cons]
    have ha := h a (List.mem_cons_self a rest)
    have hr := ih (fun x hx => h x (List.mem_cons_of_mem a hx))
    linarith

theorem clampFold_nonneg (ds : List ℚ) (s : ℚ) (hs1 : 1 / 10 ≤ s)
    (hs2 : s ≤ 20) (hds : ∀ d ∈ ds, 0 ≤ d) :
    ds.foldl (fun sc d => minQ (maxQ (1 / 10) (sc + d)) 20) s
      = minQ (maxQ (1 / 10) (s + ds.sum)) 20 := by
  induction ds generalizing s with
  | nil =>
    simp only [List.foldl_nil, List.sum_nil, add_zero]
    exact (clamp_of_mem s hs1 hs2).symm
  | cons d rest ih =>
    have hd : 0 ≤ d := hds d (List.mem_cons_self d rest)
    have hrest : ∀ e ∈ rest, 0 ≤ e :=
      fun e he => hds e (List.mem_cons_of_mem d he)
    have hsum : 0 ≤ rest.sum := List.sum_nonneg hrest
    have hstep : (d :: rest).foldl
        (fun sc e => minQ (maxQ (1 / 10) (sc + e)) 20) s
        = rest.foldl (fun sc e => minQ (maxQ (1 / 10) (sc + e)) 20)
            (minQ (maxQ (1 / 10) (s + d)) 20) := rfl
    rw [hstep, ih _ (clamp_range _).1 (clamp_range _).2 hrest,
      clamp_add_clamp_nonneg s d rest.sum hs1 hs2 hd hsum, List.sum_cons]

theorem clampFold_nonpos (ds : List ℚ) (s : ℚ) (hs1 : 1 / 10 ≤ s)
    (hs2 : s ≤ 20) (hds : ∀ d ∈ ds, d ≤ 0) :
    ds.foldl (fun sc d => minQ (maxQ (1 / 10) (sc + d)) 20) s
      = minQ (maxQ (1 / 10) (s + ds.sum)) 20 := by
  induction ds generalizing s with
  | nil =>
    simp only [List.foldl_nil, List.sum_nil, add_zero]
    exact (clamp_of_mem s hs1 hs2).symm
  | cons d rest ih =>
    have hd : d ≤ 0 := hds d (List.mem_cons_self d rest)
    have hrest : ∀ e ∈ rest, e ≤ 0 :=
      fun e he => hds e (List.mem_cons_of_mem d he)
    have hsum : rest.sum ≤ 0 := list_sum_nonpos rest hrest
    have hstep : (d :: rest).foldl
        (fun sc e => minQ (maxQ (1 / 10) (sc + e)) 20) s
        = rest.foldl (fun sc e => minQ (maxQ (1 / 10) (sc + e)) 20)
            (minQ (maxQ (1 / 10) (s + d)) 20) := rfl
    rw [hstep, ih _ (clamp_range _).1 (clamp_range _).2 hrest,
      clamp_add_clamp_nonpos s d rest.sum hs1 hs2 hd hsum, List.sum_cons]

theorem handleWheel_indep (images : List String) (table : TransformTable)
    (id : String) (d : ℚ) (p : TransformState)
    (hp : lookupT table id = some p) :
    handleWheel false images table id d
      = setT table id
          ⟨p.x, p.y, minQ (maxQ (1 / 10) (p.scale + d * (-ZOOM_SPEED))) 20⟩ := by
  unfold handleWheel applyTransformUpdate
  simp [hp]

theorem wheelSeq_indep (images : List String) (table : TransformTable)
    (id : String) (x y s : ℚ) (ds : List ℚ)
    (hp : lookupT table id = some ⟨x, y, s⟩) :
    ds.foldl (fun t d => handleWheel false images t id d) table
      = setT table id
          ⟨x, y, ds.foldl
            (fun sc d => minQ (maxQ (1 / 10) (sc + d * (-ZOOM_SPEED))) 20) s⟩ := by
  induction ds generalizing table s with
  | nil => exact (setT_eq_of_lookupT table id _ hp).symm
  | cons d rest ih =>
    have hstep : (d :: rest).foldl
        (fun t e => handleWheel false images t id e) table
        = rest.foldl (fun t e => handleWheel false images t id e)
            (handleWheel false images table id d) := rfl
    rw [hstep, handleWheel_indep images table id d _ hp]
    have hp2 : lookupT
        (setT table id
          ⟨x, y, minQ (maxQ (1 / 10) (s + d * (-ZOOM_SPEED))) 20⟩) id
        = some ⟨x, y, minQ (maxQ (1 / 10) (s + d * (-ZOOM_SPEED))) 20⟩ := by
      simp [lookupT_setT]
    rw [ih _ _ hp2, setT_setT_self]
    rfl

theorem sum_map_mulneg (ds : List ℚ) (c : ℚ) :
    (ds.map (fun d => d * c)).sum = ds.sum * c := by
  induction ds with
  | nil => simp
  | cons a rest ih => simp [List.sum_cons, ih, add_mul]

/-! Section: Branch characterizations of the handlers -/

theorem handleWheel_synced (images : List String) (table : TransformTable)
    (tid : String) (dY : ℚ) (p : TransformState)
    (hp : lookupT table tid = some p) : ∀ a,
    lookupT (handleWheel true images table tid dY) a
      = if a ∈ images then
          some ⟨p.x, p.y,
            minQ (maxQ (1 / 10) (p.scale + dY * (-ZOOM_SPEED))) 20⟩
        else lookupT table a := by
  intro a
  unfold handleWheel applyTransformUpdate
  simp [hp, lookupT_fanOut]

theorem handleZoomBtn_synced_target (images : List String)
    (table : TransformTable) (tid : String) (z : Bool) (p : TransformState)
    (hp : lookupT table tid = some p) : ∀ a,
    lookupT (handleZoomBtn true images table (some tid) z) a
      = if a ∈ images then
          some ⟨p.x, p.y,
            minQ (maxQ (1 / 10) (p.scale * (if z then 5 / 4 else 4 / 5))) 20⟩
        else lookupT table a := by
  intro a
  unfold handleZoomBtn applyTransformUpdate
  simp [hp, lookupT_fanOut]

theorem handleZoomBtn_noTarget_nil (isSynced : Bool) (table : TransformTable)
    (z : Bool) : handleZoomBtn isSynced [] table none z = table := by
  unfold handleZoomBtn applyTransformUpdate
  simp

theorem handleZoomBtn_noTarget_cons (isSynced : Bool) (i : String)
    (rest : List String) (table : TransformTable) (z : Bool)
    (p : TransformState) (hp : lookupT table i = some p) : ∀ a,
    lookupT (handleZoomBtn isSynced (i :: rest) table none z) a
      = if a ∈ i :: rest then
          some ⟨p.x, p.y,
            minQ (maxQ (1 / 10) (p.scale * (if z then 5 / 4 else 4 / 5))) 20⟩
        else lookupT table a := by
  intro a
  unfold handleZoomBtn applyTransformUpdate
  simp [hp, lookupT_fanOut]

theorem handleZoomBtn_indep (images : List String) (table : TransformTable)
    (tid : String) (z : Bool) (p : TransformState)
    (hp : lookupT table tid = some p) :
    handleZoomBtn false images table (some tid) z
      = setT table tid
          ⟨p.x, p.y,
            minQ (maxQ (1 / 10) (p.scale * (if z then 5 / 4 else 4 / 5))) 20⟩ := by
  unfold handleZoomBtn applyTransformUpdate
  simp [hp]

theorem handleReset_fanOut (isSynced : Bool) (images : List String)
    (table : TransformTable) (id : Option String)
    (h : isSynced = true ∨ id = none) : ∀ a,
    lookupT (handleReset isSynced images table id) a
      = if a ∈ images then some initTransform else lookupT table a := by
  intro a
  unfold handleReset
  rw [if_pos h, lookupT_fanOut]

theorem handleReset_indep (images : List String) (table : TransformTable)
    (i : String) :
    handleReset false images table (some i) = setT table i initTransform := by
  unfold handleReset
  simp

theorem handleMouseMove_synced (images : List String)
    (table : TransformTable) (tid : String) (dx dy : ℚ)
    (hnd : images.Nodup) : ∀ a,
    lookupT (handleMouseMove true images table true (some tid) dx dy) a
      = if a ∈ images then Option.map (moveBy dx dy) (lookupT table a)
        else lookupT table a := by
  intro a
  unfold handleMouseMove
  simp [lookupT_panFold dx dy images table a hnd]

theorem handleMouseMove_indep (images : List String)
    (table : TransformTable) (tid : String) (dx dy : ℚ) :
    handleMouseMove false images table true (some tid) dx dy
      = panStep dx dy table tid := by
  unfold handleMouseMove
  simp

/-! Section: Small auxiliary lemmas and concrete identifiers -/

def idA : String := "A"

def idB : String := "B"

def idC : String := "C"

def imgA : String := "imgA"

def imgB : String := "imgB"

theorem idA_ne_idB : ¬ idA = idB := by decide

theorem idB_ne_idA : ¬ idB = idA := by decide

theorem lookupT_isSome_keys (t : TransformTable) (k : String) :
    (lookupT t k).isSome = true ↔ k ∈ t.map Prod.fst := by
  induction t with
  | nil => simp [lookupT]
  | cons hd rest ih =>
    obtain ⟨a, w⟩ := hd
    by_cases hak : a = k
    · subst hak
      simp [lookupT]
    · have : ¬ k = a := fun h => hak h.symm
      simp [lookupT, hak, this, ih]

theorem lookupT_singleton_eq (a : String) (p : TransformState) (k : String)
    (v : TransformState) (h : lookupT [(a, p)] k = some v) : v = p := by
  by_cases hk : a = k
  · simp [lookupT, hk] at h
    exact h.symm
  · simp [lookupT, hk] at h

theorem applyTransformUpdate_indep_nontarget (images : List String)
    (table : TransformTable) (A : String)
    (upd : TransformState → TransformState) (B : String) (hne : ¬ B = A) :
    lookupT (applyTransformUpdate false images table (some A) upd) B
      = lookupT table B := by
  unfold applyTransformUpdate
  cases h : lookupT table A with
  | none => simp [h]
  | some p => simp [h, lookupT_setT, hne]

/-! Section: Claim theorems -/

/-- Claim C9: the reconciliation `ensure(ids)` is idempotent (a second run
with the same ids leaves the table unchanged), the resulting table has an
entry for exactly the identifiers in `ids`, and every newly added entry is
initialized to the identity transform `{x:0, y:0, scale:1}`. -/
theorem ensure_reconcile_spec (ids : List String) (t : TransformTable) :
    ensure ids (ensure ids t) = ensure ids t ∧
    (∀ k, (lookupT (ensure ids t) k).isSome = true ↔ k ∈ ids) ∧
    (∀ k ∈ ids, lookupT t k = none →
      lookupT (ensure ids t) k = some initTransform) := by
  refine ⟨ensure_ensure ids t, ?_, ?_⟩
  · intro k
    rw [lookupT_ensure]
    by_cases h : k ∈ ids <;> simp [h]
  · intro k hk hnone
    rw [lookupT_ensure, if_pos hk, hnone]
    rfl

/-- Witness for C9 at a concrete table: reconciling `["A","B"]` against a
table holding `"A"` and a stale `"C"` is idempotent and initializes the
fresh `"B"` entry to the identity transform. -/
theorem ensure_reconcile_spec_witness :
    ensure [idA, idB] (ensure [idA, idB] [(idA, ⟨1, 2, 3⟩), (idC, ⟨4, 5, 6⟩)])
      = ensure [idA, idB] [(idA, ⟨1, 2, 3⟩), (idC, ⟨4, 5, 6⟩)] ∧
    lookupT (ensure [idA, idB] [(idA, ⟨1, 2, 3⟩), (idC, ⟨4, 5, 6⟩)]) idB
      = some initTransform :=
  ⟨(ensure_reconcile_spec [idA, idB] [(idA, ⟨1, 2, 3⟩), (idC, ⟨4, 5, 6⟩)]).1,
   (ensure_reconcile_spec [idA, idB] [(idA, ⟨1, 2, 3⟩), (idC, ⟨4, 5, 6⟩)]).2.2
     idB (by decide) (by decide)⟩

/-- Claim C10: on a reconciled table, removing one tracked image and
reconciling deletes exactly the entry of that image, every other identifier
keeps its value, and afterwards the key set is exactly the remaining
tracked identifiers. -/
theorem remove_reconcile_spec (images : List String) (table : TransformTable)
    (r : String)
    (hrec : ∀ k, (lookupT table k).isSome = true ↔ k ∈ images) :
    lookupT (ensure (handleRemove r images) table) r = none ∧
    (∀ k, ¬ k = r →
      lookupT (ensure (handleRemove r images) table) k = lookupT table k) ∧
    (∀ k, (lookupT (ensure (handleRemove r images) table) k).isSome = true
      ↔ k ∈ handleRemove r images) := by
  have hmem : ∀ k, k ∈ handleRemove r images ↔ (k ∈ images ∧ ¬ k = r) := by
    intro k
    unfold handleRemove
    simp [List.mem_filter]
  refine ⟨?_, ?_, ?_⟩
  · rw [lookupT_ensure]
    have hr : ¬ r ∈ handleRemove r images := by
      rw [hmem]
      intro hc
      exact hc.2 rfl
    rw [if_neg hr]
  · intro k hk
    rw [lookupT_ensure]
    by_cases hki : k ∈ images
    · have hmem2 : k ∈ handleRemove r images := (hmem k).mpr ⟨hki, hk⟩
      rw [if_pos hmem2]
      obtain ⟨v, hv⟩ := Option.isSome_iff_exists.mp ((hrec k).mpr hki)
      rw [hv]
      rfl
    · have hnone : lookupT table k = none := by
        cases h : lookupT table k with
        | none => rfl
        | some v => exact absurd ((hrec k).mp (by rw [h]; rfl)) hki
      have hno : ¬ k ∈ handleRemove r images :=
        fun hc => hki ((hmem k).mp hc).1
      rw [if_neg hno, hnone]
  · intro k
    rw [lookupT_ensure]
    by_cases h : k ∈ handleRemove r images <;> simp [h]

/-- Witness for C10: three tracked images, `"B"` removed; its entry is
gone, `"A"` keeps its value, and the key set matches the remaining ids. -/
theorem remove_reconcile_spec_witness :
    lookupT (ensure (handleRemove idB [idA, idB, idC])
        [(idA, ⟨1, 2, 3⟩), (idB, ⟨4, 5, 6⟩), (idC, ⟨7, 8, 9⟩)]) idB = none ∧
    lookupT (ensure (handleRemove idB [idA, idB, idC])
        [(idA, ⟨1, 2, 3⟩), (idB, ⟨4, 5, 6⟩), (idC, ⟨7, 8, 9⟩)]) idA
      = lookupT [(idA, ⟨1, 2, 3⟩), (idB, ⟨4, 5, 6⟩), (idC, ⟨7, 8, 9⟩)] idA ∧
    ((lookupT (ensure (handleRemove idB [idA, idB, idC])
        [(idA, ⟨1, 2, 3⟩), (idB, ⟨4, 5, 6⟩), (idC, ⟨7, 8, 9⟩)]) idC).isSome
          = true
      ↔ idC ∈ handleRemove idB [idA, idB, idC]) := by
  have hrec : ∀ k, (lookupT
      [(idA, (⟨1, 2, 3⟩ : TransformState)), (idB, ⟨4, 5, 6⟩),
        (idC, ⟨7, 8, 9⟩)] k).isSome = true ↔ k ∈ [idA, idB, idC] := by
    intro k
    rw [lookupT_isSome_keys]
    simp
  exact ⟨(remove_reconcile_spec [idA, idB, idC] _ idB hrec).1,
    (remove_reconcile_spec [idA, idB, idC] _ idB hrec).2.1 idA (by decide),
    (remove_reconcile_spec [idA, idB, idC] _ idB hrec).2.2 idC⟩

/-- Claim C4: starting from tables where every tracked entry has scale 1,
any finite sequence of zoom operations (wheel zooms with arbitrary deltas
and zoom buttons, each in either sync mode, with any targets) leaves every
scale of every entry inside `[0.1, 20]`. -/
theorem scale_always_clamped (images : List String) (table : TransformTable)
    (ops : List ZoomOp)
    (hinit : ∀ k v, lookupT table k = some v → v.scale = 1) :
    ∀ k v, lookupT (applyZoomOps images table ops) k = some v →
      1 / 10 ≤ v.scale ∧ v.scale ≤ 20 := by
  apply applyZoomOps_scale_range
  intro k v hkv
  rw [hinit k v hkv]
  norm_num

/-- Witness for C4: one image at scale 1, a huge zoom-in wheel delta; the
resulting scale 20 is inside the clamp interval. -/
theorem scale_always_clamped_witness :
    ∃ v, lookupT (applyZoomOps [idA] [(idA, initTransform)]
        [ZoomOp.wheel true idA (-50000)]) idA = some v ∧
      1 / 10 ≤ v.scale ∧ v.scale ≤ 20 := by
  have hres : lookupT (applyZoomOps [idA] [(idA, initTransform)]
      [ZoomOp.wheel true idA (-50000)]) idA = some ⟨0, 0, 20⟩ := by
    show lookupT (handleWheel true [idA] [(idA, initTransform)] idA
      (-50000)) idA = some ⟨0, 0, 20⟩
    rw [handleWheel_synced [idA] [(idA, initTransform)] idA (-50000)
      initTransform rfl idA]
    norm_num [initTransform, minQ, maxQ, ZOOM_SPEED]
  exact ⟨⟨0, 0, 20⟩, hres,
    scale_always_clamped [idA] [(idA, initTransform)]
      [ZoomOp.wheel true idA (-50000)]
      (fun k v h => by rw [lookupT_singleton_eq idA initTransform k v h]; rfl)
      idA ⟨0, 0, 20⟩ hres⟩

/-- Claim C1 counterexample: in synced mode a pan step does NOT copy one
reference transform to all images.  Starting from a freshly reconciled
pair, panning image B alone in independent mode and then performing a
single synced pan step leaves the two tracked transforms different
(`{1,0,1}` vs `{8,0,1}`), so they are not identical after that mutation. -/
theorem synced_pan_not_uniform_cex :
    lookupT (handleMouseMove true [idA, idB]
        (handleMouseMove false [idA, idB] (ensure [idA, idB] [])
          true (some idB) 7 0) true (some idA) 1 0) idA
      = some ⟨1, 0, 1⟩ ∧
    lookupT (handleMouseMove true [idA, idB]
        (handleMouseMove false [idA, idB] (ensure [idA, idB] [])
          true (some idB) 7 0) true (some idA) 1 0) idB
      = some ⟨8, 0, 1⟩ ∧
    lookupT (handleMouseMove true [idA, idB]
        (handleMouseMove false [idA, idB] (ensure [idA, idB] [])
          true (some idB) 7 0) true (some idA) 1 0) idA
      ≠ lookupT (handleMouseMove true [idA, idB]
          (handleMouseMove false [idA, idB] (ensure [idA, idB] [])
            true (some idB) 7 0) true (some idA) 1 0) idB := by
  have h0 : ensure [idA, idB] []
      = [(idA, initTransform), (idB, initTransform)] := by
    simp [ensure, addMissing, lookupT, setT, idA_ne_idB, idB_ne_idA]
  have h1 : handleMouseMove false [idA, idB] (ensure [idA, idB] [])
      true (some idB) 7 0 = [(idA, initTransform), (idB, ⟨7, 0, 1⟩)] := by
    rw [handleMouseMove_indep, h0]
    norm_num [panStep, lookupT, setT, moveBy, initTransform, idA_ne_idB,
      idB_ne_idA]
  have hnd : ([idA, idB] : List String).Nodup := by decide
  have hA : lookupT (handleMouseMove true [idA, idB]
      (handleMouseMove false [idA, idB] (ensure [idA, idB] [])
        true (some idB) 7 0) true (some idA) 1 0) idA = some ⟨1, 0, 1⟩ := by
    rw [h1, handleMouseMove_synced [idA, idB] _ idA 1 0 hnd idA]
    norm_num [lookupT, moveBy, initTransform, idA_ne_idB, idB_ne_idA]
  have hB : lookupT (handleMouseMove true [idA, idB]
      (handleMouseMove false [idA, idB] (ensure [idA, idB] [])
        true (some idB) 7 0) true (some idA) 1 0) idB = some ⟨8, 0, 1⟩ := by
    rw [h1, handleMouseMove_synced [idA, idB] _ idA 1 0 hnd idB]
    norm_num [lookupT, moveBy, initTransform, idA_ne_idB, idB_ne_idA]
  refine ⟨hA, hB, ?_⟩
  rw [hA, hB]
  intro hc
  have := Option.some.inj hc
  have hx : (1 : ℚ) = 8 := congrArg TransformState.x this
  norm_num at hx

/-- Claim C1 (amended): in synced mode, a wheel zoom, a button zoom and a
reset are each computed once from the reference transform and the result
is copied verbatim to every tracked image, so all tracked transforms are
identical afterwards; a synced pan step instead adds the movement delta to
the own previous offset of each image, so transforms agree after a synced pan
only when they agreed before. -/
theorem synced_mutation_fanout_amended (images : List String)
    (table : TransformTable) (tid : String) (dY : ℚ) (z : Bool) (dx dy : ℚ)
    (hnd : images.Nodup) :
    (∀ p, lookupT table tid = some p → ∀ a ∈ images,
      lookupT (handleWheel true images table tid dY) a
        = some ⟨p.x, p.y,
            minQ (maxQ (1 / 10) (p.scale + dY * (-ZOOM_SPEED))) 20⟩) ∧
    (∀ p, lookupT table tid = some p → ∀ a ∈ images,
      lookupT (handleZoomBtn true images table (some tid) z) a
        = some ⟨p.x, p.y,
            minQ (maxQ (1 / 10) (p.scale * (if z then 5 / 4 else 4 / 5))) 20⟩) ∧
    (∀ a ∈ images,
      lookupT (handleReset true images table (some tid)) a
        = some initTransform) ∧
    (∀ a ∈ images,
      lookupT (handleMouseMove true images table true (some tid) dx dy) a
        = Option.map (moveBy dx dy) (lookupT table a)) := by
  refine ⟨?_, ?_, ?_, ?_⟩
  · intro p hp a ha
    rw [handleWheel_synced images table tid dY p hp a, if_pos ha]
  · intro p hp a ha
    rw [handleZoomBtn_synced_target images table tid z p hp a, if_pos ha]
  · intro a ha
    rw [handleReset_fanOut true images table (some tid) (Or.inl rfl) a,
      if_pos ha]
  · intro a ha
    rw [handleMouseMove_synced images table tid dx dy hnd a, if_pos ha]

/-- Witness for the amended C1 at a concrete input: with two differing
entries, a synced wheel zoom on `"A"` overwrites `"B"` with the transform
computed from `"A"`, and a synced reset sends `"B"` to the identity. -/
theorem synced_mutation_fanout_amended_witness :
    lookupT (handleWheel true [idA, idB]
        [(idA, ⟨3, 4, 5⟩), (idB, ⟨6, 7, 8⟩)] idA (-10)) idB
      = some ⟨3, 4, minQ (maxQ (1 / 10) (5 + (-10) * (-ZOOM_SPEED))) 20⟩ ∧
    lookupT (handleReset true [idA, idB]
        [(idA, ⟨3, 4, 5⟩), (idB, ⟨6, 7, 8⟩)] (some idA)) idB
      = some initTransform :=
  ⟨(synced_mutation_fanout_amended [idA, idB]
      [(idA, ⟨3, 4, 5⟩), (idB, ⟨6, 7, 8⟩)] idA (-10) true 0 0
      (by decide)).1 ⟨3, 4, 5⟩ rfl idB (by decide),
   (synced_mutation_fanout_amended [idA, idB]
      [(idA, ⟨3, 4, 5⟩), (idB, ⟨6, 7, 8⟩)] idA (-10) true 0 0
      (by decide)).2.2.1 idB (by decide)⟩

/-- Claim C5: a synced pan step adds the movement delta `(dx, dy)` to each
own previous offset of each tracked image and leaves every scale unchanged, so
the pairwise offset difference of any two tracked images is preserved. -/
theorem synced_pan_per_image (images : List String) (table : TransformTable)
    (tid : String) (dx dy : ℚ) (hnd : images.Nodup) :
    (∀ a ∈ images, ∀ p, lookupT table a = some p →
      lookupT (handleMouseMove true images table true (some tid) dx dy) a
        = some ⟨p.x + dx, p.y + dy, p.scale⟩) ∧
    (∀ a ∈ images, ∀ b ∈ images, ∀ p q,
      lookupT table a = some p → lookupT table b = some q →
      lookupT (handleMouseMove true images table true (some tid) dx dy) a
          = some ⟨p.x + dx, p.y + dy, p.scale⟩ ∧
      lookupT (handleMouseMove true images table true (some tid) dx dy) b
          = some ⟨q.x + dx, q.y + dy, q.scale⟩ ∧
      (p.x + dx) - (q.x + dx) = p.x - q.x ∧
      (p.y + dy) - (q.y + dy) = p.y - q.y) := by
  have hone : ∀ a ∈ images, ∀ p, lookupT table a = some p →
      lookupT (handleMouseMove true images table true (some tid) dx dy) a
        = some ⟨p.x + dx, p.y + dy, p.scale⟩ := by
    intro a ha p hp
    rw [handleMouseMove_synced images table tid dx dy hnd a, if_pos ha, hp]
    rfl
  refine ⟨hone, ?_⟩
  intro a ha b hb p q hp hq
  exact ⟨hone a ha p hp, hone b hb q hq, by ring, by ring⟩

/-- Witness for C5 at a concrete input: a synced pan by `(2, 3)` moves both
entries by the delta, preserving their offset difference. -/
theorem synced_pan_per_image_witness :
    lookupT (handleMouseMove true [idA, idB]
        [(idA, ⟨0, 0, 1⟩), (idB, ⟨7, 0, 1⟩)] true (some idA) 2 3) idB
      = some ⟨7 + 2, 0 + 3, 1⟩ :=
  (synced_pan_per_image [idA, idB] [(idA, ⟨0, 0, 1⟩), (idB, ⟨7, 0, 1⟩)]
    idA 2 3 (by decide)).1 idB (by decide) ⟨7, 0, 1⟩ rfl

/-- Claim C6: in independent mode any mutation with explicit target `A`
(wheel zoom, button zoom, reset, pan step) leaves the entry of every other
identifier `B` unchanged; in particular panning `A` by `(5, -3)` from the
identity yields `{5, -3, 1}` for `A` while `B` stays `{0, 0, 1}`. -/
theorem independent_target_frame (images : List String)
    (table : TransformTable) (A B : String) (dY : ℚ) (z : Bool) (dx dy : ℚ)
    (hne : ¬ B = A) :
    lookupT (handleWheel false images table A dY) B = lookupT table B ∧
    lookupT (handleZoomBtn false images table (some A) z) B
      = lookupT table B ∧
    lookupT (handleReset false images table (some A)) B = lookupT table B ∧
    lookupT (handleMouseMove false images table true (some A) dx dy) B
      = lookupT table B ∧
    lookupT (handleMouseMove false [idA, idB]
        [(idA, initTransform), (idB, initTransform)] true (some idA)
        5 (-3)) idA = some ⟨5, -3, 1⟩ ∧
    lookupT (handleMouseMove false [idA, idB]
        [(idA, initTransform), (idB, initTransform)] true (some idA)
        5 (-3)) idB = some ⟨0, 0, 1⟩ := by
  refine ⟨?_, ?_, ?_, ?_, ?_, ?_⟩
  · exact applyTransformUpdate_indep_nontarget images table A _ B hne
  · exact applyTransformUpdate_indep_nontarget images table A _ B hne
  · rw [handleReset_indep, lookupT_setT]
    simp [hne]
  · rw [handleMouseMove_indep]
    unfold panStep
    cases h : lookupT table A with
    | none => rfl
    | some p =>
      rw [lookupT_setT]
      simp [hne]
  · rw [handleMouseMove_indep]
    unfold panStep
    norm_num [lookupT, setT, moveBy, initTransform, lookupT_setT]
  · rw [handleMouseMove_indep]
    unfold panStep
    norm_num [lookupT, setT, moveBy, initTransform, lookupT_setT,
      idA_ne_idB, idB_ne_idA]

/-- Witness for C6 at a concrete input: an independent wheel zoom on `"A"`
does not change the entry of `"B"`. -/
theorem independent_target_frame_witness :
    lookupT (handleWheel false [idA, idB]
        [(idA, ⟨1, 2, 3⟩), (idB, ⟨4, 5, 6⟩)] idA (-10)) idB
      = lookupT [(idA, ⟨1, 2, 3⟩), (idB, ⟨4, 5, 6⟩)] idB :=
  (independent_target_frame [idA, idB] [(idA, ⟨1, 2, 3⟩), (idB, ⟨4, 5, 6⟩)]
    idA idB (-10) true 0 0 idB_ne_idA).1

/-- Claim C7 counterexample: a reset invoked in independent mode with a
specific target resets only that target; the other tracked image keeps its
prior transform `{5, 0, 1}` instead of being reset to the identity. -/
theorem reset_independent_cex :
    lookupT (handleReset false [idA, idB]
        [(idA, ⟨1, 2, 3⟩), (idB, ⟨5, 0, 1⟩)] (some idA)) idB
      = some ⟨5, 0, 1⟩ ∧
    some (⟨5, 0, 1⟩ : TransformState) ≠ some (⟨0, 0, 1⟩ : TransformState) := by
  constructor
  · rw [handleReset_indep, lookupT_setT]
    simp [lookupT, idB_ne_idA, idA_ne_idB]
  · intro hc
    have hx : (5 : ℚ) = 0 := congrArg TransformState.x (Option.some.inj hc)
    norm_num at hx

/-- Claim C7 (amended): a reset in synced mode or with the global
no-target sets every tracked image to exactly `{x:0, y:0, scale:1}`
regardless of prior state; a reset in independent mode with a specific
target sets only that target to the identity and leaves every other entry
unchanged. -/
theorem reset_amended (isSynced : Bool) (images : List String)
    (table : TransformTable) (id : Option String) :
    (isSynced = true ∨ id = none → ∀ a ∈ images,
      lookupT (handleReset isSynced images table id) a
        = some initTransform) ∧
    (∀ A, isSynced = false → id = some A →
      lookupT (handleReset isSynced images table id) A = some initTransform ∧
      ∀ b, ¬ b = A →
        lookupT (handleReset isSynced images table id) b
          = lookupT table b) := by
  constructor
  · intro h a ha
    rw [handleReset_fanOut isSynced images table id h a, if_pos ha]
  · intro A h1 h2
    subst h1
    subst h2
    rw [handleReset_indep]
    constructor
    · rw [lookupT_setT]
      simp
    · intro b hb
      rw [lookupT_setT]
      simp [hb]

/-- Witness for the amended C7: a global reset sends `"B"` to the
identity; an independent reset of `"A"` leaves `"B"` untouched. -/
theorem reset_amended_witness :
    lookupT (handleReset true [idA, idB] [(idA, ⟨1, 2, 3⟩)] none) idB
      = some initTransform ∧
    lookupT (handleReset false [idA, idB]
        [(idA, ⟨1, 2, 3⟩), (idB, ⟨5, 0, 1⟩)] (some idA)) idB
      = lookupT [(idA, ⟨1, 2, 3⟩), (idB, ⟨5, 0, 1⟩)] idB :=
  ⟨(reset_amended true [idA, idB] [(idA, ⟨1, 2, 3⟩)] none).1 (Or.inl rfl)
      idB (by decide),
   ((reset_amended false [idA, idB] [(idA, ⟨1, 2, 3⟩), (idB, ⟨5, 0, 1⟩)]
      (some idA)).2 idA rfl rfl).2 idB idB_ne_idA⟩

/-- Claim C8: two images tracked and synced, both at scale 1; a wheel zoom
on image A with raw delta -10 yields scale `1.01 = 101/100` on both images
(sensitivity `ZOOM_SPEED = 0.001`, sign flipped, one clamp afterwards). -/
theorem synced_wheel_scenario :
    lookupT (handleWheel true [imgA, imgB]
        [(imgA, ⟨0, 0, 1⟩), (imgB, ⟨0, 0, 1⟩)] imgA (-10)) imgA
      = some ⟨0, 0, 101 / 100⟩ ∧
    lookupT (handleWheel true [imgA, imgB]
        [(imgA, ⟨0, 0, 1⟩), (imgB, ⟨0, 0, 1⟩)] imgA (-10)) imgB
      = some ⟨0, 0, 101 / 100⟩ ∧
    maxQ (1 / 10) (1 + (-10) * (-(1 / 1000))) = 101 / 100 := by
  have hp : lookupT [(imgA, (⟨0, 0, 1⟩ : TransformState)),
      (imgB, ⟨0, 0, 1⟩)] imgA = some ⟨0, 0, 1⟩ := rfl
  have hval : minQ (maxQ (1 / 10)
      ((1 : ℚ) + (-10) * (-ZOOM_SPEED))) 20 = 101 / 100 := by
    norm_num [minQ, maxQ, ZOOM_SPEED]
  refine ⟨?_, ?_, by norm_num [maxQ]⟩
  · rw [handleWheel_synced [imgA, imgB]
      [(imgA, ⟨0, 0, 1⟩), (imgB, ⟨0, 0, 1⟩)] imgA (-10) ⟨0, 0, 1⟩ hp imgA]
    simp only [List.mem_cons, true_or, if_pos]
    rw [hval]
  · rw [handleWheel_synced [imgA, imgB]
      [(imgA, ⟨0, 0, 1⟩), (imgB, ⟨0, 0, 1⟩)] imgA (-10) ⟨0, 0, 1⟩ hp imgB]
    simp only [List.mem_cons, or_true, true_or, if_pos]
    rw [hval]

/-- Claim C2 counterexample: in independent mode, a zoom with no explicit
target does NOT apply only to the first tracked image.  With `"A"` at
scale 1 and `"B"` at scale 2, a global zoom-in button press overwrites
`"B"` with the transform computed from `"A"` (scale `1.25`), so `"B"` does
not keep its prior entry. -/
theorem independent_global_zoom_cex :
    lookupT (handleZoomBtn false [idA, idB]
        [(idA, ⟨0, 0, 1⟩), (idB, ⟨0, 0, 2⟩)] none true) idB
      = some ⟨0, 0, 5 / 4⟩ ∧
    lookupT [(idA, (⟨0, 0, 1⟩ : TransformState)), (idB, ⟨0, 0, 2⟩)] idB
      = some ⟨0, 0, 2⟩ ∧
    some (⟨0, 0, 5 / 4⟩ : TransformState)
      ≠ some (⟨0, 0, 2⟩ : TransformState) := by
  have hp : lookupT [(idA, (⟨0, 0, 1⟩ : TransformState)), (idB, ⟨0, 0, 2⟩)]
      idA = some ⟨0, 0, 1⟩ := rfl
  refine ⟨?_, ?_, ?_⟩
  · rw [handleZoomBtn_noTarget_cons false idA [idB]
      [(idA, ⟨0, 0, 1⟩), (idB, ⟨0, 0, 2⟩)] true ⟨0, 0, 1⟩ hp idB]
    simp only [List.mem_cons, or_true, true_or, if_pos, if_true]
    have hval : minQ (maxQ (1 / 10) ((1 : ℚ) * (5 / 4))) 20 = 5 / 4 := by
      norm_num [minQ, maxQ]
    rw [hval]
  · simp [lookupT, idA_ne_idB]
  · intro hc
    have hs : (5 / 4 : ℚ) = 2 := congrArg TransformState.scale
      (Option.some.inj hc)
    norm_num at hs
/-- Claim C2 (amended): in independent mode a zoom with no explicit target
takes the fan-out branch: with zero tracked images it is a no-op on the
table, and otherwise the new transform is computed once from the first
entry of the first tracked image and copied verbatim to every tracked image (not
applied to the first image only). -/
theorem independent_global_zoom_amended (table : TransformTable) (z : Bool) :
    handleZoomBtn false [] table none z = table ∧
    (∀ i rest p, lookupT table i = some p → ∀ a ∈ i :: rest,
      lookupT (handleZoomBtn false (i :: rest) table none z) a
        = some ⟨p.x, p.y,
            minQ (maxQ (1 / 10) (p.scale * (if z then 5 / 4 else 4 / 5)))
              20⟩) := by
  refine ⟨handleZoomBtn_noTarget_nil false table z, ?_⟩
  intro i rest p hp a ha
  rw [handleZoomBtn_noTarget_cons false i rest table z p hp a, if_pos ha]

/-- Witness for the amended C2: the empty-image no-op at a concrete table,
and the fan-out of a global zoom-in onto the second of two images. -/
theorem independent_global_zoom_amended_witness :
    handleZoomBtn false [] [(idA, ⟨1, 2, 3⟩)] none true = [(idA, ⟨1, 2, 3⟩)] ∧
    lookupT (handleZoomBtn false [idA, idB] [(idA, ⟨1, 2, 3⟩)] none true) idB
      = some ⟨1, 2, minQ (maxQ (1 / 10) (3 * (if true then 5 / 4 else 4 / 5)))
          20⟩ :=
  ⟨(independent_global_zoom_amended [(idA, ⟨1, 2, 3⟩)] true).1,
   (independent_global_zoom_amended [(idA, ⟨1, 2, 3⟩)] true).2 idA [idB]
     ⟨1, 2, 3⟩ rfl idB (by decide)⟩

/-- Claim C3 counterexample: splitting a total wheel delta into steps of
mixed sign does not land on the same final scale once a bound is hit
mid-sequence.  From scale 1, raw deltas `-25000` then `5000` (scale deltas
`+25` then `-5`) give scale 15, while the single combined raw delta
`-20000` (scale delta `+20`) gives scale 20. -/
theorem wheel_split_cex :
    lookupT (([-25000, 5000] : List ℚ).foldl
        (fun t d => handleWheel false [idA] t idA d)
        [(idA, ⟨0, 0, 1⟩)]) idA = some ⟨0, 0, 15⟩ ∧
    lookupT (handleWheel false [idA] [(idA, ⟨0, 0, 1⟩)] idA
        (([-25000, 5000] : List ℚ).sum)) idA = some ⟨0, 0, 20⟩ ∧
    some (⟨0, 0, 15⟩ : TransformState)
      ≠ some (⟨0, 0, 20⟩ : TransformState) := by
  have e1 : handleWheel false [idA] [(idA, (⟨0, 0, 1⟩ : TransformState))]
      idA (-25000) = [(idA, ⟨0, 0, 20⟩)] := by
    rw [handleWheel_indep [idA] [(idA, ⟨0, 0, 1⟩)] idA (-25000)
      ⟨0, 0, 1⟩ rfl]
    norm_num [setT, minQ, maxQ, ZOOM_SPEED]
  have e2 : handleWheel false [idA] [(idA, (⟨0, 0, 20⟩ : TransformState))]
      idA 5000 = [(idA, ⟨0, 0, 15⟩)] := by
    rw [handleWheel_indep [idA] [(idA, ⟨0, 0, 20⟩)] idA 5000
      ⟨0, 0, 20⟩ rfl]
    norm_num [setT, minQ, maxQ, ZOOM_SPEED]
  have hsum : ([-25000, 5000] : List ℚ).sum = -20000 := by norm_num
  have e3 : handleWheel false [idA] [(idA, (⟨0, 0, 1⟩ : TransformState))]
      idA (-20000) = [(idA, ⟨0, 0, 20⟩)] := by
    rw [handleWheel_indep [idA] [(idA, ⟨0, 0, 1⟩)] idA (-20000)
      ⟨0, 0, 1⟩ rfl]
    norm_num [setT, minQ, maxQ, ZOOM_SPEED]
  refine ⟨?_, ?_, ?_⟩
  · show lookupT (handleWheel false [idA]
      (handleWheel false [idA] [(idA, ⟨0, 0, 1⟩)] idA (-25000)) idA 5000)
        idA = some ⟨0, 0, 15⟩
    rw [e1, e2]
    rfl
  · rw [hsum, e3]
    rfl
  · intro hc
    have hs : (15 : ℚ) = 20 := congrArg TransformState.scale
      (Option.some.inj hc)
    norm_num at hs

/-- Claim C3 (amended): for wheel zooms on a fixed target, each operation
adds its full delta and clamps exactly once afterwards; consequently a
total additive delta split into successive deltas of a uniform sign lands
on the same final scale as the single combined delta.  (With deltas of
mixed sign this fails once a bound is hit mid-sequence, as the
counterexample shows.) -/
theorem wheel_split_same_sign (images : List String)
    (table : TransformTable) (id : String) (x y s : ℚ) (ds : List ℚ)
    (hp : lookupT table id = some ⟨x, y, s⟩)
    (hs1 : 1 / 10 ≤ s) (hs2 : s ≤ 20)
    (hsign : (∀ d ∈ ds, 0 ≤ d) ∨ (∀ d ∈ ds, d ≤ 0)) :
    ds.foldl (fun t d => handleWheel false images t id d) table
      = handleWheel false images table id ds.sum := by
  rw [wheelSeq_indep images table id x y s ds hp,
    handleWheel_indep images table id ds.sum ⟨x, y, s⟩ hp]
  have hmap : ds.foldl
      (fun sc d => minQ (maxQ (1 / 10) (sc + d * (-ZOOM_SPEED))) 20) s
      = (ds.map (fun d => d * (-ZOOM_SPEED))).foldl
          (fun sc e => minQ (maxQ (1 / 10) (sc + e)) 20) s := by
    rw [List.foldl_map]
  have hz : (0 : ℚ) < ZOOM_SPEED := by norm_num [ZOOM_SPEED]
  have hfold : ds.foldl
      (fun sc d => minQ (maxQ (1 / 10) (sc + d * (-ZOOM_SPEED))) 20) s
      = minQ (maxQ (1 / 10) (s + ds.sum * (-ZOOM_SPEED))) 20 := by
    rw [hmap]
    rcases hsign with hpos | hneg
    · have hall : ∀ e ∈ ds.map (fun d => d * (-ZOOM_SPEED)), e ≤ 0 := by
        intro e he
        obtain ⟨d, hd, rfl⟩ := List.mem_map.mp he
        have h0 : 0 ≤ d := hpos d hd
        nlinarith
      rw [clampFold_nonpos _ s hs1 hs2 hall, sum_map_mulneg]
    · have hall : ∀ e ∈ ds.map (fun d => d * (-ZOOM_SPEED)), 0 ≤ e := by
        intro e he
        obtain ⟨d, hd, rfl⟩ := List.mem_map.mp he
        have h0 : d ≤ 0 := hneg d hd
        nlinarith
      rw [clampFold_nonneg _ s hs1 hs2 hall, sum_map_mulneg]
  rw [hfold]

/-- Witness for the amended C3: two successive zoom-in wheel deltas
(`-1000` then `-2000`) on one image equal the single combined delta. -/
theorem wheel_split_same_sign_witness :
    ([-1000, -2000] : List ℚ).foldl
        (fun t d => handleWheel false [idA] t idA d) [(idA, ⟨0, 0, 1⟩)]
      = handleWheel false [idA] [(idA, ⟨0, 0, 1⟩)] idA
          (([-1000, -2000] : List ℚ).sum) := by
  refine wheel_split_same_sign [idA] [(idA, ⟨0, 0, 1⟩)] idA 0 0 1
    [-1000, -2000] rfl (by norm_num) (by norm_num) (Or.inr ?_)
  intro d hd
  rcases List.mem_cons.mp hd with h | h
  · rw [h]
    norm_num
  · rcases List.mem_cons.mp h with h2 | h2
    · rw [h2]
      norm_num
    · simp at h2

end PixelDiff
